import Mathlib

/-!
Verification of the stock-allocation domain model and service layer
(`allocation/domain/model.py`, `allocation/service_layer/unit_of_work.py`,
`allocation/service_layer/messagebus.py`, `allocation/service_layer/handlers.py`).

Shallow embedding conventions:
- Python `int` is `Int` (quantities may go negative in the source).
- `datetime.date` is `Option Nat`: only its total order is used by the code,
  so a date is an ordinal day number and `none` models `eta = None`.
- The Python `set` of allocations is a duplicate-free `List`; `set.add`
  inserts only when absent, `set.pop` removes the head (the source pops an
  arbitrary element; the head is one faithful deterministic choice).
- Fallible operations (`next(...)` raising `StopIteration`, `set.pop` on an
  empty set raising `KeyError`) return `Option`, with `none` for the raise.
-/

/-- Value object `LigneDeCommande` (model.py lines 23-38): immutable,
compared by full value, hashable, hence usable as a set member. -/
structure LigneDeCommande where
  id_commande : String
  sku : String
  quantite : Int
  deriving DecidableEq

/-- Entity `Lot` (model.py lines 41-111). `_quantite_achetee` is the purchased
quantity; `_allocations` is the set of allocated order lines, embedded as a
duplicate-free list. -/
structure Lot where
  reference : String
  sku : String
  eta : Option Nat
  quantite_achetee : Int
  allocations : List LigneDeCommande
  deriving DecidableEq

/-- Sum of the quantities of a list of order lines. -/
def sommeQuantites (lignes : List LigneDeCommande) : Int :=
  lignes.foldr (fun l acc => l.quantite + acc) 0

/-- Property `quantite_allouee` (model.py lines 85-88). -/
def Lot.quantite_allouee (lot : Lot) : Int :=
  sommeQuantites lot.allocations

/-- Property `quantite_disponible` (model.py lines 90-93). -/
def Lot.quantite_disponible (lot : Lot) : Int :=
  lot.quantite_achetee - lot.quantite_allouee

/-- Method `Lot.peut_allouer` (model.py lines 109-111): sku matches and the
available quantity suffices. -/
def Lot.peut_allouer (lot : Lot) (ligne : LigneDeCommande) : Bool :=
  lot.sku == ligne.sku && decide (ligne.quantite ≤ lot.quantite_disponible)

/-- Method `Lot.allouer` (model.py lines 95-98): if the line can be allocated,
add it to the allocation set; `set.add` is a no-op when already present. -/
def Lot.allouer (lot : Lot) (ligne : LigneDeCommande) : Lot :=
  if lot.peut_allouer ligne then
    if ligne ∈ lot.allocations then lot
    else { lot with allocations := ligne :: lot.allocations }
  else lot

/-- Method `Lot.desallouer` (model.py lines 100-103): remove the line from the
allocation set if present, otherwise no-op. -/
def Lot.desallouer (lot : Lot) (ligne : LigneDeCommande) : Lot :=
  { lot with allocations := lot.allocations.erase ligne }

/-- Method `Lot.desallouer_une` (model.py lines 105-107): `set.pop` removes and
returns an arbitrary member, here the head; `none` models the `KeyError`
raised on an empty set. -/
def Lot.desallouer_une (lot : Lot) : Option (LigneDeCommande × Lot) :=
  match lot.allocations with
  | [] => none
  | ligne :: reste => some (ligne, { lot with allocations := reste })

/-- Method `Lot.__gt__` (model.py lines 73-83): a lot with `eta = None` is
never greater; a dated lot is greater than an in-stock one; two dated lots
compare by eta. -/
def lotGt (a b : Lot) : Bool :=
  match a.eta with
  | none => false
  | some ae =>
    match b.eta with
    | none => true
    | some be => decide (be < ae)

/-- The strict order Python evaluates for `a < b` during `sorted`: `Lot` has
no `__lt__`, so Python falls back to the reflected `b.__gt__(a)`. -/
def lotLt (a b : Lot) : Bool := lotGt b a

/-- The non-strict order realised by Python stable sorting with `lotLt`:
`a` may stay before `b` exactly when `b < a` fails. -/
def lotLe (a b : Lot) : Bool := !(lotLt b a)

-- Claim theorems follow.

/-- Domain events (events.py): `Alloue`, `Desalloue`, `RuptureDeStock`. -/
inductive Evenement where
  | alloue (id_commande sku : String) (quantite : Int) (ref_lot : String)
  | desalloue (id_commande sku : String) (quantite : Int)
  | ruptureDeStock (sku : String)
  deriving DecidableEq

/-- Aggregate root `Produit` (model.py lines 114-128): the batches of one sku,
a version number, and the pending-event list. -/
structure Produit where
  sku : String
  lots : List Lot
  numero_version : Int
  evenements : List Evenement
  deriving DecidableEq

/-- Replace the first occurrence of `cible` in a list. Used to embed Python
in-place mutation of the object found inside the list of the aggregate. -/
def remplacerPremier {α : Type} [DecidableEq α] : List α → α → α → List α
  | [], _, _ => []
  | x :: reste, cible, nouveau =>
    if x = cible then nouveau :: reste
    else x :: remplacerPremier reste cible nouveau

/-- Method `Produit.allouer` (model.py lines 130-161): take the first batch of
`sorted(self.lots)` that can hold the line (Python stable sort under the
reflected `__gt__`, embedded as `mergeSort lotLe`), allocate on it, bump the
version, append an `Alloue` event and return its reference; if none can,
append `RuptureDeStock` and return the empty reference. -/
def Produit.allouer (p : Produit) (ligne : LigneDeCommande) : Produit × String :=
  match (p.lots.mergeSort lotLe).find? (fun l => l.peut_allouer ligne) with
  | none =>
      ({ p with evenements := p.evenements ++ [Evenement.ruptureDeStock ligne.sku] }, "")
  | some lot =>
      ({ p with
          lots := remplacerPremier p.lots lot (lot.allouer ligne),
          numero_version := p.numero_version + 1,
          evenements := p.evenements ++
            [Evenement.alloue ligne.id_commande ligne.sku ligne.quantite lot.reference] },
       lot.reference)

/-- The while-loop of `Produit.modifier_quantite_lot` (model.py lines 173-181):
with the new purchased quantity fixed, pop allocated lines while the available
quantity is negative. Returns the remaining and the removed lines in pop
order; `none` models the `KeyError` of `set.pop` on an empty set. -/
def desallouerEnExces (achetee : Int) :
    List LigneDeCommande → Option (List LigneDeCommande × List LigneDeCommande)
  | [] => if achetee < 0 then none else some ([], [])
  | ligne :: reste =>
    if achetee - sommeQuantites (ligne :: reste) < 0 then
      match desallouerEnExces achetee reste with
      | none => none
      | some (restantes, retirees) => some (restantes, ligne :: retirees)
    else some (ligne :: reste, [])

/-- Method `Produit.modifier_quantite_lot` (model.py lines 163-181): find the
batch by reference (`none` models the `StopIteration` of `next` when absent),
set its purchased quantity, then deallocate lines while available quantity is
negative, appending one `Desalloue` event per removed line in pop order. -/
def Produit.modifier_quantite_lot (p : Produit) (ref : String) (quantite : Int) :
    Option Produit :=
  match p.lots.find? (fun l => l.reference == ref) with
  | none => none
  | some lot =>
    match desallouerEnExces quantite lot.allocations with
    | none => none
    | some (restantes, retirees) =>
      some { p with
        lots := remplacerPremier p.lots lot
          { lot with quantite_achetee := quantite, allocations := restantes },
        evenements := p.evenements ++
          retirees.map (fun l => Evenement.desalloue l.id_commande l.sku l.quantite) }

-- Order-theoretic facts about the batch ordering used by `sorted`.

/-- Invariant of one batch: every allocated line has the batch sku and the
available quantity is non-negative. -/
def invariantLot (lot : Lot) : Prop :=
  (∀ ligne ∈ lot.allocations, ligne.sku = lot.sku) ∧ 0 ≤ lot.quantite_disponible

/-- Invariant of the aggregate: every batch satisfies `invariantLot`. -/
def invariantProduit (p : Produit) : Prop :=
  ∀ lot ∈ p.lots, invariantLot lot

/-- Method `AbstractUnitOfWork.collect_new_events` (unit_of_work.py lines
51-61), fully consumed: for each seen aggregate in turn, pop and yield its
pending events front first until its list is empty. Returns the yielded
events and the seen aggregates afterwards. -/
def collect_new_events : List Produit → List Evenement × List Produit
  | [] => ([], [])
  | p :: reste =>
    let (evts, reste2) := collect_new_events reste
    (p.evenements ++ evts, { p with evenements := [] } :: reste2)

/-- State the event-dispatch loop of the bus acts on: the message queue
(restricted to its event part, the only part `_handle_event` touches) and the
events pending inside the aggregates seen by the Unit of Work, flattened. -/
structure EtatBus where
  queue : List Evenement
  enAttente : List Evenement
  deriving DecidableEq

/-- Behaviour of one event handler as the bus observes it: given the event
and the events currently pending in the Unit of Work, the call either returns
normally (`true`) or raises (`false`), leaving some events pending. -/
def Gestionnaire : Type :=
  Evenement → List Evenement → Bool × List Evenement

/-- One iteration of the loop of `MessageBus._handle_event` (messagebus.py
lines 75-88): call the handler inside `try`; only when it returns normally
does `self.queue.extend(self.uow.collect_new_events())` run, draining the
pending events to the back of the queue; when it raises, the exception is
logged and the pending events stay where they are. -/
def etapeGestionnaire (h : Gestionnaire) (e : Evenement) (s : EtatBus) : EtatBus :=
  let (ok, enAttente2) := h e s.enAttente
  if ok then { queue := s.queue ++ enAttente2, enAttente := [] }
  else { queue := s.queue, enAttente := enAttente2 }

/-- Method `MessageBus._handle_event` (messagebus.py lines 75-88): run every
registered handler for the event in registration order, each guarded as in
`etapeGestionnaire`. -/
def handle_event (hs : List Gestionnaire) (e : Evenement) (s : EtatBus) : EtatBus :=
  hs.foldl (fun s h => etapeGestionnaire h e s) s

/-- Modelled from the amended specification wording: the events appended to
the queue are exactly those harvested right after each successful handler
invocation, in invocation order, and the events left pending are those
present after the last invocation if no later invocation succeeded. Used
only to compare `handle_event` against the spec. -/
def specRecoltesEtReste (e : Evenement) :
    List Gestionnaire → List Evenement → List Evenement × List Evenement
  | [], enAttente => ([], enAttente)
  | h :: hs, enAttente =>
    let (ok, enAttente2) := h e enAttente
    if ok then
      let (recoltes, reste) := specRecoltesEtReste e hs []
      (enAttente2 ++ recoltes, reste)
    else specRecoltesEtReste e hs enAttente2

/-- Command `Allouer` (commands.py). -/
structure CommandeAllouer where
  id_commande : String
  sku : String
  quantite : Int
  deriving DecidableEq

/-- Command handler `allouer` (handlers.py lines 58-77) over an in-memory
repository state (the list of stored aggregates; `find?` embeds
`uow.produits.get(sku)`). On an unknown sku it raises `SkuInconnu` before
touching any aggregate, embedded as returning the unchanged store with an
`Except.error`; otherwise it builds the order line, calls `Produit.allouer`,
stores the updated aggregate and returns the batch reference. -/
def traiterAllouer (depot : List Produit) (cmd : CommandeAllouer) :
    List Produit × Except String String :=
  match depot.find? (fun p => p.sku == cmd.sku) with
  | none => (depot, Except.error ("SKU inconnu : " ++ cmd.sku))
  | some produit =>
    let ligne : LigneDeCommande := ⟨cmd.id_commande, cmd.sku, cmd.quantite⟩
    let (produit2, ref) := produit.allouer ligne
    (remplacerPremier depot produit produit2, Except.ok ref)

/-- Concrete failing handler used to exercise the bus: it leaves one pending
event behind and raises. -/
def gestionnaireDefaillant : Gestionnaire :=
  fun _ _ => (false, [Evenement.ruptureDeStock "CHAISE"])

/-- Concrete order line used by the closed witness theorems. -/
def ligneTest : LigneDeCommande := ⟨"o1", "CHAISE", 4⟩

/-- Concrete in-stock batch. -/
def lotEnStock : Lot := ⟨"enstock", "CHAISE", none, 10, []⟩

/-- Concrete dated batch. -/
def lotDate : Lot := ⟨"retard", "CHAISE", some 5, 10, []⟩

/-- Concrete product holding a dated batch before an in-stock one. -/
def produitTest : Produit := ⟨"CHAISE", [lotDate, lotEnStock], 0, []⟩

/-- Concrete batch whose stock is fully allocated to a 10-unit line. -/
def lotSature : Lot := ⟨"lot1", "CHAISE", none, 10, [⟨"o2", "CHAISE", 10⟩]⟩

/-- Concrete product whose single batch is fully allocated. -/
def produitSature : Produit := ⟨"CHAISE", [lotSature], 3, []⟩

/-- State of `produitSature` after `modifier_quantite_lot "lot1" 5`: the
10-unit line is deallocated and one `Desalloue` event is pending. -/
def produitSatureApres : Produit :=
  ⟨"CHAISE", [⟨"lot1", "CHAISE", none, 5, []⟩], 3,
   [Evenement.desalloue "o2" "CHAISE" 10]⟩

/-- Concrete allocation command for a sku with no stored product. -/
def commandeTest : CommandeAllouer := ⟨"o1", "TABLE", 4⟩

instance (lot : Lot) : Decidable (invariantLot lot) := by
  unfold invariantLot
  infer_instance

instance (p : Produit) : Decidable (invariantProduit p) := by
  unfold invariantProduit
  infer_instance

-- Theorems.

/-- C5: the claim as stated fails when the order line is already a member of
the batch allocation set: with purchased quantity 10 and the 5-unit line
already allocated, `peut_allouer` holds (5 ≤ 5 available) but `allouer` is a
no-op, so `quantite_disponible` stays 5 instead of dropping to 0. -/
theorem C5_contre_exemple :
    let ligne : LigneDeCommande := ⟨"o1", "CHAISE", 5⟩
    let lot : Lot := ⟨"lot1", "CHAISE", none, 10, [⟨"o1", "CHAISE", 5⟩]⟩
    lot.sku = ligne.sku ∧
    ligne.quantite ≤ lot.quantite_disponible ∧
    lot.peut_allouer ligne = true ∧
    ¬ ((lot.allouer ligne).quantite_disponible
        = lot.quantite_disponible - ligne.quantite) := by
  refine ⟨rfl, by decide, by decide, by decide⟩

/-- C5 (amended with the line not yet allocated): if the skus match,
`ligne.quantite ≤ lot.quantite_disponible`, and the line is not already in
the allocation set, then `peut_allouer` holds and `allouer` decreases
`quantite_disponible` by exactly `ligne.quantite`. -/
theorem C5_allouer_diminue_disponible (lot : Lot) (ligne : LigneDeCommande)
    (hsku : lot.sku = ligne.sku)
    (hqte : ligne.quantite ≤ lot.quantite_disponible)
    (habs : ligne ∉ lot.allocations) :
    lot.peut_allouer ligne = true ∧
    (lot.allouer ligne).quantite_disponible
      = lot.quantite_disponible - ligne.quantite := by
  have hpeut : lot.peut_allouer ligne = true := by
    simp [Lot.peut_allouer, hsku, hqte]
  refine ⟨hpeut, ?_⟩
  simp only [Lot.allouer, hpeut, if_true, habs, if_false]
  simp [Lot.quantite_disponible, Lot.quantite_allouee, sommeQuantites]
  ring

/-- C5 witness. -/
theorem C5_allouer_diminue_disponible_temoin :
    let ligne : LigneDeCommande := ⟨"o1", "CHAISE", 3⟩
    let lot : Lot := ⟨"lot1", "CHAISE", none, 10, []⟩
    lot.sku = ligne.sku ∧ ligne.quantite ≤ lot.quantite_disponible ∧
    ligne ∉ lot.allocations ∧
    (lot.peut_allouer ligne = true ∧
     (lot.allouer ligne).quantite_disponible
       = lot.quantite_disponible - ligne.quantite) := by
  exact ⟨rfl, by decide, by decide,
    C5_allouer_diminue_disponible _ _ rfl (by decide) (by decide)⟩

/-- Allocating the same line twice leaves the whole batch state unchanged
after the first call: the set insert is idempotent. -/
theorem allouer_idempotent_etat (lot : Lot) (ligne : LigneDeCommande) :
    (lot.allouer ligne).allouer ligne = lot.allouer ligne := by
  by_cases hpeut : lot.peut_allouer ligne = true
  · by_cases hmem : ligne ∈ lot.allocations
    · simp [Lot.allouer, hpeut, hmem]
    · have hlot1 : lot.allouer ligne
          = { lot with allocations := ligne :: lot.allocations } := by
        simp [Lot.allouer, hpeut, hmem]
      rw [hlot1]
      simp [Lot.allouer]
  · have hlot1 : lot.allouer ligne = lot := by
      simp [Lot.allouer, hpeut]
    rw [hlot1, hlot1]

/-- C8: calling `allouer` twice with the same line yields the same
`quantite_disponible` as a single call (idempotence via set semantics). -/
theorem C8_allouer_idempotent (lot : Lot) (ligne : LigneDeCommande) :
    ((lot.allouer ligne).allouer ligne).quantite_disponible
      = (lot.allouer ligne).quantite_disponible := by
  rw [allouer_idempotent_etat]

/-- Reflexivity of the non-strict sort order. -/
theorem lotLe_refl (a : Lot) : lotLe a a = true := by
  unfold lotLe lotLt lotGt
  cases a.eta with
  | none => rfl
  | some ae => simp

/-- Totality of the non-strict sort order. -/
theorem lotLe_total (a b : Lot) : (lotLe a b || lotLe b a) = true := by
  unfold lotLe lotLt lotGt
  cases ha : a.eta with
  | none => simp
  | some ae =>
    cases hb : b.eta with
    | none => simp
    | some be => simp; omega

/-- Transitivity of the non-strict sort order. -/
theorem lotLe_trans (a b c : Lot) (h1 : lotLe a b = true) (h2 : lotLe b c = true) :
    lotLe a c = true := by
  unfold lotLe lotLt lotGt at h1 h2 ⊢
  cases ha : a.eta with
  | none => simp
  | some ae =>
    cases hc : c.eta with
    | none =>
      rw [ha] at h1
      cases hb : b.eta with
      | none => rw [hb] at h1; simp at h1
      | some be => rw [hb] at h2; rw [hc] at h2; simp at h2
    | some ce =>
      rw [ha] at h1
      cases hb : b.eta with
      | none => rw [hb] at h1; simp at h1
      | some be =>
        rw [hb] at h1; rw [hb, hc] at h2
        simp at h1 h2 ⊢; omega

/-- In a list sorted for `le`, the first element satisfying `p` is `le` every
element satisfying `p` (the elements before it all fail `p`). -/
theorem find?_min_of_pairwise {α : Type} {le : α → α → Bool} {p : α → Bool}
    (refl : ∀ a, le a a = true) :
    ∀ {s : List α}, s.Pairwise (fun a b => le a b = true) →
      ∀ {x : α}, s.find? p = some x → ∀ y ∈ s, p y = true → le x y = true := by
  intro s
  induction s with
  | nil => intro _ x hx; simp at hx
  | cons a t ih =>
    intro hpw x hfind y hy hpy
    have hpw' := List.pairwise_cons.mp hpw
    by_cases hpa : p a
    · rw [List.find?_cons_of_pos _ hpa] at hfind
      injection hfind with hfind
      subst hfind
      rcases List.mem_cons.mp hy with rfl | hyt
      · exact refl y
      · exact hpw'.1 y hyt
    · rw [List.find?_cons_of_neg _ hpa] at hfind
      rcases List.mem_cons.mp hy with rfl | hyt
      · rw [hpy] at hpa; contradiction
      · exact ih hpw'.2 hfind y hyt hpy

/-- Elements of `remplacerPremier xs cible nouveau` come from `xs` or are
the replacement. -/
theorem mem_remplacerPremier {α : Type} [DecidableEq α]
    {xs : List α} {cible nouveau : α} :
    ∀ y ∈ remplacerPremier xs cible nouveau, y ∈ xs ∨ y = nouveau := by
  induction xs with
  | nil => intro y hy; simp [remplacerPremier] at hy
  | cons x reste ih =>
    intro y hy
    by_cases hx : x = cible
    · simp only [remplacerPremier, hx, if_true] at hy
      rcases List.mem_cons.mp hy with rfl | hyr
      · exact Or.inr rfl
      · exact Or.inl (List.mem_cons.mpr (Or.inr hyr))
    · simp only [remplacerPremier, hx, if_false] at hy
      rcases List.mem_cons.mp hy with rfl | hyr
      · exact Or.inl (List.mem_cons.mpr (Or.inl rfl))
      · rcases ih y hyr with h | h
        · exact Or.inl (List.mem_cons.mpr (Or.inr h))
        · exact Or.inr h

/-- Replacing an element by one with the same image under `f` preserves the
`f`-image of the list. -/
theorem map_remplacerPremier {α β : Type} [DecidableEq α] (f : α → β)
    (xs : List α) (cible nouveau : α) (h : f nouveau = f cible) :
    (remplacerPremier xs cible nouveau).map f = xs.map f := by
  induction xs with
  | nil => rfl
  | cons x reste ih =>
    by_cases hx : x = cible
    · simp [remplacerPremier, hx, h]
    · simp [remplacerPremier, hx, ih]

/-- The method `Lot.allouer` only touches the allocation set: reference, sku,
eta and purchased quantity are unchanged. -/
theorem allouer_cadre (lot : Lot) (ligne : LigneDeCommande) :
    (lot.allouer ligne).reference = lot.reference ∧
    (lot.allouer ligne).sku = lot.sku ∧
    (lot.allouer ligne).eta = lot.eta ∧
    (lot.allouer ligne).quantite_achetee = lot.quantite_achetee := by
  unfold Lot.allouer
  by_cases h : lot.peut_allouer ligne = true <;>
    by_cases h2 : ligne ∈ lot.allocations <;> simp [h, h2]

/-- When some batch of the product can take the line, `Produit.allouer` finds
one in the sorted batch list. -/
theorem allouer_find_some (p : Produit) (ligne : LigneDeCommande)
    (h : ∃ lot ∈ p.lots, lot.peut_allouer ligne = true) :
    ∃ lot, (p.lots.mergeSort lotLe).find? (fun l => l.peut_allouer ligne) = some lot := by
  obtain ⟨lot0, hmem, hp⟩ := h
  have hmemS : lot0 ∈ p.lots.mergeSort lotLe :=
    (List.mergeSort_perm p.lots lotLe).mem_iff.mpr hmem
  cases hfind : (p.lots.mergeSort lotLe).find? (fun l => l.peut_allouer ligne) with
  | none =>
    have := List.find?_eq_none.mp hfind lot0 hmemS
    simp [hp] at this
  | some lot => exact ⟨lot, rfl⟩

/-- C1: when at least one batch can take the line, `Produit.allouer` allocates
it on a batch satisfying `peut_allouer` that is minimal for the batch order
(an in-stock batch beats any dated batch, a dated batch beats later-dated
ones), and returns that batch reference. -/
theorem C1_allouer_choisit_minimum (p : Produit) (ligne : LigneDeCommande)
    (h : ∃ lot ∈ p.lots, lot.peut_allouer ligne = true) :
    ∃ lot ∈ p.lots, lot.peut_allouer ligne = true ∧
      (p.allouer ligne).2 = lot.reference ∧
      (p.allouer ligne).1.lots = remplacerPremier p.lots lot (lot.allouer ligne) ∧
      ∀ l2 ∈ p.lots, l2.peut_allouer ligne = true → lotLt l2 lot = false := by
  obtain ⟨lot, hfind⟩ := allouer_find_some p ligne h
  have hperm := List.mergeSort_perm p.lots lotLe
  have hplot : lot.peut_allouer ligne = true := by
    have := List.find?_some hfind
    simpa using this
  have hmem : lot ∈ p.lots := hperm.mem_iff.mp (List.mem_of_find?_eq_some hfind)
  have hsorted : (p.lots.mergeSort lotLe).Pairwise (fun a b => lotLe a b = true) :=
    List.sorted_mergeSort lotLe_trans lotLe_total p.lots
  refine ⟨lot, hmem, hplot, ?_, ?_, ?_⟩
  · simp [Produit.allouer, hfind]
  · simp [Produit.allouer, hfind]
  · intro l2 hl2 hpl2
    have hl2s : l2 ∈ p.lots.mergeSort lotLe := hperm.mem_iff.mpr hl2
    have hle : lotLe lot l2 = true :=
      find?_min_of_pairwise lotLe_refl hsorted hfind l2 hl2s (by simpa using hpl2)
    unfold lotLe at hle
    simpa using hle

/-- C2: when no batch can take the line, `Produit.allouer` returns the empty
reference and the only change to the product is one appended
`RuptureDeStock` event carrying the line sku: batches and version untouched,
and no exception escapes (the `StopIteration` is caught internally). -/
theorem C2_rupture_de_stock (p : Produit) (ligne : LigneDeCommande)
    (h : ∀ lot ∈ p.lots, lot.peut_allouer ligne = false) :
    (p.allouer ligne).2 = "" ∧
    (p.allouer ligne).1
      = { p with evenements := p.evenements ++ [Evenement.ruptureDeStock ligne.sku] } := by
  have hfind : (p.lots.mergeSort lotLe).find? (fun l => l.peut_allouer ligne) = none := by
    rw [List.find?_eq_none]
    intro x hx
    have := h x ((List.mergeSort_perm p.lots lotLe).mem_iff.mp hx)
    simp [this]
  constructor <;> simp [Produit.allouer, hfind]

/-- C9: on a successful allocation (some batch can take the line) the version
number grows by exactly 1 and nothing else changes except the allocation set
of the chosen batch and the pending-event list: the sku is unchanged, the new
batch list is the old one with only the chosen batch replaced by its
allocated version — every other batch is kept identical, allocation set
included — the replacement keeps its reference, sku, eta and purchased
quantity (only its allocation set may differ), and the event list gains
exactly the `Alloue` event; on the out-of-stock outcome the version number
is unchanged. -/
theorem C9_version_allocation (p : Produit) (ligne : LigneDeCommande) :
    ((∃ lot ∈ p.lots, lot.peut_allouer ligne = true) →
      ∃ lot ∈ p.lots,
        (p.allouer ligne).1.numero_version = p.numero_version + 1 ∧
        (p.allouer ligne).1.sku = p.sku ∧
        (p.allouer ligne).1.lots
          = remplacerPremier p.lots lot (lot.allouer ligne) ∧
        (lot.allouer ligne).reference = lot.reference ∧
        (lot.allouer ligne).sku = lot.sku ∧
        (lot.allouer ligne).eta = lot.eta ∧
        (lot.allouer ligne).quantite_achetee = lot.quantite_achetee ∧
        (p.allouer ligne).1.evenements = p.evenements ++
          [Evenement.alloue ligne.id_commande ligne.sku ligne.quantite
            lot.reference]) ∧
    ((∀ lot ∈ p.lots, lot.peut_allouer ligne = false) →
      (p.allouer ligne).1.numero_version = p.numero_version) := by
  constructor
  · intro h
    obtain ⟨lot, hfind⟩ := allouer_find_some p ligne h
    obtain ⟨h1, h2, h3, h4⟩ := allouer_cadre lot ligne
    have hmem : lot ∈ p.lots :=
      (List.mergeSort_perm p.lots lotLe).mem_iff.mp (List.mem_of_find?_eq_some hfind)
    refine ⟨lot, hmem, ?_, ?_, ?_, h1, h2, h3, h4, ?_⟩
    · simp [Produit.allouer, hfind]
    · simp [Produit.allouer, hfind]
    · simp [Produit.allouer, hfind]
    · simp [Produit.allouer, hfind]
  · intro h
    have hfind : (p.lots.mergeSort lotLe).find? (fun l => l.peut_allouer ligne) = none := by
      rw [List.find?_eq_none]
      intro x hx
      have := h x ((List.mergeSort_perm p.lots lotLe).mem_iff.mp hx)
      simp [this]
    simp [Produit.allouer, hfind]

/-- Characterisation of the deallocation loop: with a non-negative new
purchased quantity it never pops an empty set (the loop guard fails first),
the original allocations split into the removed lines followed by the
remaining ones, and the resulting available quantity is non-negative. -/
theorem desallouerEnExces_spec (achetee : Int) (h : 0 ≤ achetee) :
    ∀ lignes : List LigneDeCommande, ∃ restantes retirees,
      desallouerEnExces achetee lignes = some (restantes, retirees) ∧
      lignes = retirees ++ restantes ∧
      0 ≤ achetee - sommeQuantites restantes := by
  intro lignes
  induction lignes with
  | nil =>
    refine ⟨[], [], ?_, rfl, ?_⟩
    · simp [desallouerEnExces, not_lt.mpr h]
    · simpa [sommeQuantites] using h
  | cons ligne reste ih =>
    by_cases hg : achetee - sommeQuantites (ligne :: reste) < 0
    · obtain ⟨restantes, retirees, heq, hsplit, hpos⟩ := ih
      refine ⟨restantes, ligne :: retirees, ?_, ?_, hpos⟩
      · simp [desallouerEnExces, hg, heq]
      · simp [hsplit]
    · refine ⟨ligne :: reste, [], ?_, rfl, ?_⟩
      · simp [desallouerEnExces, hg]
      · omega

/-- C3: with a batch found by reference, a new quantity `quantite ≥ 0` and
positive allocated line quantities, `modifier_quantite_lot` terminates
normally (returns `some`, never popping an empty set), leaves the updated
batch with non-negative available quantity, and appends exactly one
`Desalloue` event per removed line, carrying the order id, sku and
quantity, in removal order. -/
theorem C3_modifier_quantite_lot (p : Produit) (ref : String) (quantite : Int)
    (lot : Lot)
    (hlot : p.lots.find? (fun l => l.reference == ref) = some lot)
    (hq : 0 ≤ quantite)
    (hpos : ∀ ligne ∈ lot.allocations, 0 < ligne.quantite) :
    ∃ restantes retirees,
      p.modifier_quantite_lot ref quantite
        = some { p with
            lots := remplacerPremier p.lots lot
              { lot with quantite_achetee := quantite, allocations := restantes },
            evenements := p.evenements ++
              retirees.map (fun l => Evenement.desalloue l.id_commande l.sku l.quantite) } ∧
      lot.allocations = retirees ++ restantes ∧
      0 ≤ Lot.quantite_disponible
            { lot with quantite_achetee := quantite, allocations := restantes } := by
  obtain ⟨restantes, retirees, heq, hsplit, hdisp⟩ :=
    desallouerEnExces_spec quantite hq lot.allocations
  refine ⟨restantes, retirees, ?_, hsplit, ?_⟩
  · simp [Produit.modifier_quantite_lot, hlot, heq]
  · simpa [Lot.quantite_disponible, Lot.quantite_allouee] using hdisp

/-- The batch invariant is preserved by `Lot.allouer`: a line is only added
when its sku matches and its quantity fits the available quantity. -/
theorem allouer_conserve_invariant (lot : Lot) (ligne : LigneDeCommande)
    (h : invariantLot lot) : invariantLot (lot.allouer ligne) := by
  by_cases hpeut : lot.peut_allouer ligne = true
  · by_cases hmem : ligne ∈ lot.allocations
    · simpa [Lot.allouer, hpeut, hmem] using h
    · have hconds : lot.sku = ligne.sku ∧ ligne.quantite ≤ lot.quantite_disponible := by
        have h2 := hpeut
        unfold Lot.peut_allouer at h2
        simpa using h2
      obtain ⟨hskus, hdisp⟩ := h
      have hforme : lot.allouer ligne
          = { lot with allocations := ligne :: lot.allocations } := by
        simp [Lot.allouer, hpeut, hmem]
      rw [hforme]
      constructor
      · intro l hl
        rcases List.mem_cons.mp hl with rfl | hl2
        · exact hconds.1.symm
        · exact hskus l hl2
      · have hqte := hconds.2
        unfold Lot.quantite_disponible Lot.quantite_allouee sommeQuantites
          at hdisp hqte ⊢
        simp only [List.foldr_cons]
        omega
  · simpa [Lot.allouer, hpeut] using h

/-- The aggregate invariant is preserved by `Produit.allouer`. -/
theorem produit_allouer_conserve_invariant (p : Produit) (ligne : LigneDeCommande)
    (h : invariantProduit p) : invariantProduit (p.allouer ligne).1 := by
  cases hfind : (p.lots.mergeSort lotLe).find? (fun l => l.peut_allouer ligne) with
  | none =>
    intro lot hlot
    simp only [Produit.allouer, hfind] at hlot
    exact h lot hlot
  | some lot =>
    intro l2 hl2
    simp only [Produit.allouer, hfind] at hl2
    rcases mem_remplacerPremier l2 hl2 with hmem | rfl
    · exact h l2 hmem
    · have hlotmem : lot ∈ p.lots :=
        (List.mergeSort_perm p.lots lotLe).mem_iff.mp (List.mem_of_find?_eq_some hfind)
      exact allouer_conserve_invariant lot ligne (h lot hlotmem)

/-- The aggregate invariant is preserved by `Produit.modifier_quantite_lot`
when the new quantity is non-negative. -/
theorem modifier_conserve_invariant (p : Produit) (ref : String) (q : Int)
    (p2 : Produit) (hq : 0 ≤ q)
    (heq : p.modifier_quantite_lot ref q = some p2)
    (h : invariantProduit p) : invariantProduit p2 := by
  cases hfind : p.lots.find? (fun l => l.reference == ref) with
  | none => simp [Produit.modifier_quantite_lot, hfind] at heq
  | some lot =>
    cases hdes : desallouerEnExces q lot.allocations with
    | none => simp [Produit.modifier_quantite_lot, hfind, hdes] at heq
    | some pr =>
      obtain ⟨restantes, retirees⟩ := pr
      simp only [Produit.modifier_quantite_lot, hfind, hdes, Option.some.injEq] at heq
      obtain ⟨r2, t2, heq2, hsplit, hdisp⟩ := desallouerEnExces_spec q hq lot.allocations
      rw [hdes] at heq2
      simp only [Option.some.injEq, Prod.mk.injEq] at heq2
      obtain ⟨hr, ht⟩ := heq2
      subst hr; subst ht
      subst heq
      intro l2 hl2
      simp only at hl2
      rcases mem_remplacerPremier l2 hl2 with hmem | rfl
      · exact h l2 hmem
      · have hlotmem : lot ∈ p.lots := List.mem_of_find?_eq_some hfind
        obtain ⟨hskus, _⟩ := h lot hlotmem
        constructor
        · intro l hl
          have : l ∈ lot.allocations := by rw [hsplit]; exact List.mem_append.mpr (Or.inr hl)
          exact hskus l this
        · unfold Lot.quantite_disponible Lot.quantite_allouee
          simpa using hdisp

/-- C10: the three domain operations preserve the aggregate invariant
(allocated lines carry the batch sku and every available quantity is
non-negative at exit): `Lot.allouer` on an invariant batch, `Produit.allouer`
on an invariant product, and `Produit.modifier_quantite_lot` with a
non-negative new quantity on an invariant product. -/
theorem C10_operations_conservent_invariant :
    (∀ (lot : Lot) (ligne : LigneDeCommande),
      invariantLot lot → invariantLot (lot.allouer ligne)) ∧
    (∀ (p : Produit) (ligne : LigneDeCommande),
      invariantProduit p → invariantProduit (p.allouer ligne).1) ∧
    (∀ (p : Produit) (ref : String) (q : Int) (p2 : Produit),
      0 ≤ q → p.modifier_quantite_lot ref q = some p2 →
      invariantProduit p → invariantProduit p2) :=
  ⟨allouer_conserve_invariant, produit_allouer_conserve_invariant,
   modifier_conserve_invariant⟩

/-- C6: fully consuming `collect_new_events` yields every pending event of
every seen aggregate exactly once, in FIFO order aggregate by aggregate;
afterwards the event list of every seen aggregate is empty, and consuming again
yields nothing new. -/
theorem C6_collect_new_events (vus : List Produit) :
    (collect_new_events vus).1 = (vus.map (fun p => p.evenements)).flatten ∧
    (∀ p ∈ (collect_new_events vus).2, p.evenements = []) ∧
    collect_new_events (collect_new_events vus).2
      = ([], (collect_new_events vus).2) := by
  induction vus with
  | nil => exact ⟨rfl, by intro p hp; simp [collect_new_events] at hp, rfl⟩
  | cons p reste ih =>
    obtain ⟨ih1, ih2, ih3⟩ := ih
    refine ⟨?_, ?_, ?_⟩
    · simp [collect_new_events, ih1]
    · intro q hq
      simp only [collect_new_events] at hq
      rcases List.mem_cons.mp hq with rfl | hq2
      · rfl
      · exact ih2 q hq2
    · simp [collect_new_events, ih3]

/-- C4: the claim as stated is false. A handler that raises after producing a
pending event does not get its harvest appended: `queue.extend(...)` sits
inside the `try` after the handler call, so on the exception path nothing is
appended and the event stays pending in the Unit of Work. -/
theorem C4_contre_exemple :
    (gestionnaireDefaillant (Evenement.ruptureDeStock "X") []).2
      = [Evenement.ruptureDeStock "CHAISE"] ∧
    (handle_event [gestionnaireDefaillant] (Evenement.ruptureDeStock "X")
        ⟨[], []⟩).queue = [] ∧
    (handle_event [gestionnaireDefaillant] (Evenement.ruptureDeStock "X")
        ⟨[], []⟩).enAttente = [Evenement.ruptureDeStock "CHAISE"] := by
  refine ⟨rfl, rfl, rfl⟩

/-- C4 (amended to successful invocations only): event dispatch appends to
the back of the queue exactly the events harvested right after each handler
invocation that returns normally, while a raising invocation appends nothing
and leaves its events pending, as described by `specRecoltesEtReste`. -/
theorem C4_recolte_apres_succes (hs : List Gestionnaire) (e : Evenement)
    (s : EtatBus) :
    handle_event hs e s
      = ⟨s.queue ++ (specRecoltesEtReste e hs s.enAttente).1,
         (specRecoltesEtReste e hs s.enAttente).2⟩ := by
  induction hs generalizing s with
  | nil => simp [handle_event, specRecoltesEtReste]
  | cons h hs ih =>
    have hstep : handle_event (h :: hs) e s
        = handle_event hs e (etapeGestionnaire h e s) := rfl
    rw [hstep, ih]
    cases hcall : h e s.enAttente with
    | mk ok enAttente2 =>
      cases ok with
      | true =>
        have hetape : etapeGestionnaire h e s = ⟨s.queue ++ enAttente2, []⟩ := by
          unfold etapeGestionnaire
          rw [hcall]
          simp
        have hspec : specRecoltesEtReste e (h :: hs) s.enAttente
            = (enAttente2 ++ (specRecoltesEtReste e hs []).1,
               (specRecoltesEtReste e hs []).2) := by
          simp only [specRecoltesEtReste, hcall]
          simp
        rw [hetape, hspec]
        simp
      | false =>
        have hetape : etapeGestionnaire h e s = ⟨s.queue, enAttente2⟩ := by
          unfold etapeGestionnaire
          rw [hcall]
          simp
        have hspec : specRecoltesEtReste e (h :: hs) s.enAttente
            = specRecoltesEtReste e hs enAttente2 := by
          simp only [specRecoltesEtReste, hcall]
          simp
        rw [hetape, hspec]

/-- C7: the `allouer` command handler, given a sku with no stored Product,
returns the distinguished unknown-sku error and leaves the repository state
untouched: no allocation set, purchased quantity or version number of any
aggregate changes. -/
theorem C7_sku_inconnu (depot : List Produit) (cmd : CommandeAllouer)
    (h : ∀ p ∈ depot, p.sku ≠ cmd.sku) :
    traiterAllouer depot cmd
      = (depot, Except.error ("SKU inconnu : " ++ cmd.sku)) := by
  have hfind : depot.find? (fun p => p.sku == cmd.sku) = none := by
    rw [List.find?_eq_none]
    intro p hp
    simpa using h p hp
  simp [traiterAllouer, hfind]

/-- C1 witness. -/
theorem C1_allouer_choisit_minimum_temoin :
    (∃ lot ∈ produitTest.lots, lot.peut_allouer ligneTest = true) ∧
    (∃ lot ∈ produitTest.lots, lot.peut_allouer ligneTest = true ∧
      (produitTest.allouer ligneTest).2 = lot.reference ∧
      (produitTest.allouer ligneTest).1.lots
        = remplacerPremier produitTest.lots lot (lot.allouer ligneTest) ∧
      ∀ l2 ∈ produitTest.lots, l2.peut_allouer ligneTest = true →
        lotLt l2 lot = false) :=
  ⟨by decide, C1_allouer_choisit_minimum produitTest ligneTest (by decide)⟩

/-- C2 witness. -/
theorem C2_rupture_de_stock_temoin :
    (∀ lot ∈ produitSature.lots, lot.peut_allouer ligneTest = false) ∧
    ((produitSature.allouer ligneTest).2 = "" ∧
     (produitSature.allouer ligneTest).1
       = { produitSature with
            evenements := produitSature.evenements
              ++ [Evenement.ruptureDeStock ligneTest.sku] }) :=
  ⟨by decide, C2_rupture_de_stock produitSature ligneTest (by decide)⟩

/-- C3 witness. -/
theorem C3_modifier_quantite_lot_temoin :
    (produitSature.lots.find? (fun l => l.reference == "lot1") = some lotSature ∧
     0 ≤ (5 : Int) ∧
     (∀ ligne ∈ lotSature.allocations, 0 < ligne.quantite)) ∧
    (∃ restantes retirees,
      produitSature.modifier_quantite_lot "lot1" 5
        = some { produitSature with
            lots := remplacerPremier produitSature.lots lotSature
              { lotSature with quantite_achetee := 5, allocations := restantes },
            evenements := produitSature.evenements ++
              retirees.map
                (fun l => Evenement.desalloue l.id_commande l.sku l.quantite) } ∧
      lotSature.allocations = retirees ++ restantes ∧
      0 ≤ Lot.quantite_disponible
            { lotSature with quantite_achetee := 5, allocations := restantes }) :=
  ⟨⟨by decide, by decide, by decide⟩,
   C3_modifier_quantite_lot produitSature "lot1" 5 lotSature
     (by decide) (by decide) (by decide)⟩

/-- C7 witness. -/
theorem C7_sku_inconnu_temoin :
    (∀ p ∈ [produitTest], p.sku ≠ commandeTest.sku) ∧
    traiterAllouer [produitTest] commandeTest
      = ([produitTest], Except.error ("SKU inconnu : " ++ commandeTest.sku)) :=
  ⟨by decide, C7_sku_inconnu [produitTest] commandeTest (by decide)⟩

/-- C9 witness: the success part at a product that can allocate, the
out-of-stock part at a product that cannot. -/
theorem C9_version_allocation_temoin :
    ((∃ lot ∈ produitTest.lots, lot.peut_allouer ligneTest = true) ∧
      (∃ lot ∈ produitTest.lots,
        (produitTest.allouer ligneTest).1.numero_version
          = produitTest.numero_version + 1 ∧
        (produitTest.allouer ligneTest).1.sku = produitTest.sku ∧
        (produitTest.allouer ligneTest).1.lots
          = remplacerPremier produitTest.lots lot (lot.allouer ligneTest) ∧
        (lot.allouer ligneTest).reference = lot.reference ∧
        (lot.allouer ligneTest).sku = lot.sku ∧
        (lot.allouer ligneTest).eta = lot.eta ∧
        (lot.allouer ligneTest).quantite_achetee = lot.quantite_achetee ∧
        (produitTest.allouer ligneTest).1.evenements
          = produitTest.evenements ++
            [Evenement.alloue ligneTest.id_commande ligneTest.sku
              ligneTest.quantite lot.reference])) ∧
    ((∀ lot ∈ produitSature.lots, lot.peut_allouer ligneTest = false) ∧
      (produitSature.allouer ligneTest).1.numero_version
        = produitSature.numero_version) :=
  ⟨⟨by decide, (C9_version_allocation produitTest ligneTest).1 (by decide)⟩,
   ⟨by decide, (C9_version_allocation produitSature ligneTest).2 (by decide)⟩⟩

/-- C10 witness: each of the three operations applied at a concrete
invariant-satisfying state. -/
theorem C10_operations_conservent_invariant_temoin :
    (invariantLot lotSature ∧ invariantLot (lotSature.allouer ligneTest)) ∧
    (invariantProduit produitTest ∧
      invariantProduit (produitTest.allouer ligneTest).1) ∧
    (0 ≤ (5 : Int) ∧
      produitSature.modifier_quantite_lot "lot1" 5 = some produitSatureApres ∧
      invariantProduit produitSature ∧ invariantProduit produitSatureApres) :=
  ⟨⟨by decide,
    C10_operations_conservent_invariant.1 lotSature ligneTest (by decide)⟩,
   ⟨by decide,
    C10_operations_conservent_invariant.2.1 produitTest ligneTest (by decide)⟩,
   ⟨by decide, by decide, by decide,
    C10_operations_conservent_invariant.2.2 produitSature "lot1" 5
      produitSatureApres (by decide) (by decide) (by decide)⟩⟩
